import Mathlib

/-!
Verification development for the training harness in `code/utils.py` of the
zsgnet-pytorch repository.

The Python source is shallowly embedded: pure computations become Lean
functions on `ℚ` and `List`, stateful code (`Learner.fit`) becomes an explicit
state-passing step function over a run state, fallible code returns
`Except`/`Option`, and file-system effects are modelled as explicit event and
operation traces.  Scalars (losses, metrics) are modelled as rationals, which
share with floats decidable ordering and exact arithmetic on the concrete
inputs used here.
-/

namespace ZSGNet

/-! ## SmoothenValue (utils.py lines 33-48)

`__init__` sets `beta`, `n = 0`, `mov_avg = 0`, `smooth = 0`.
`add_value` increments `n`, updates the raw EMA and the bias-corrected value.
In the `n = 0` starting state the Python expression `mov_avg / (1 - beta ** 0)`
would divide by zero; the constructor instead stores `smooth = 0` directly, and
the Lean convention `0 / 0 = 0` agrees with that stored value. -/

structure SmoothenValue where
  beta : ℚ
  n : ℕ
  mov_avg : ℚ
  smooth : ℚ
deriving DecidableEq, Repr

def SmoothenValue.start (beta : ℚ) : SmoothenValue :=
  ⟨beta, 0, 0, 0⟩

def SmoothenValue.add_value (s : SmoothenValue) (val : ℚ) : SmoothenValue :=
  let n := s.n + 1
  let mov := s.beta * s.mov_avg + (1 - s.beta) * val
  ⟨s.beta, n, mov, mov / (1 - s.beta ^ n)⟩

def SmoothenValue.addValues (s : SmoothenValue) (xs : List ℚ) : SmoothenValue :=
  xs.foldl SmoothenValue.add_value s

/-! ## compute_avg (utils.py lines 71-73)

`(torch.stack(inp) * nums).sum() / nums.sum()` for 1-D tensors.
`torch.stack` raises on an empty list; elementwise `*` follows torch 1-D
broadcasting: defined when the lengths agree or either length is 1, a runtime
error otherwise.  Failure is modelled as `none`. -/

def torchMul (a b : List ℚ) : Option (List ℚ) :=
  if a.length = b.length then some (List.zipWith (fun x y => x * y) a b)
  else if a.length = 1 then some (b.map (fun y => a.headD 0 * y))
  else if b.length = 1 then some (a.map (fun x => x * b.headD 0))
  else none

def compute_avg (inp : List ℚ) (nums : List ℚ) : Option ℚ :=
  if inp.isEmpty then none
  else (torchMul inp nums).map (fun l => l.sum / nums.sum)

/-! ## Checkpoint load (utils.py lines 301-339, `Learner.load_model_dict`)

The checkpoint record's training-position fields are each optional (the code
tests `'num_it' in checkpoint.keys()` and so on); model/optimizer payloads are
outside the claims and omitted.  The file system is a map from path to a file
state: missing, unreadable (the `OSError` branch, re-raised), or a good record.
`resume_path == ""` selects the canonical model file. -/

structure Ckpt where
  num_it : Option ℕ
  num_epoch : Option ℕ
  best_met : Option ℚ
deriving DecidableEq, Repr

structure RState where
  num_it : ℕ
  num_epoch : ℕ
  best_met : ℚ
deriving DecidableEq, Repr

/-- The values set at the end of `Learner.__post_init__` (utils.py 144-148):
`num_it = 0`, `num_epoch = 0`, `best_met = 0`. -/
def postInitState : RState :=
  ⟨0, 0, 0⟩

inductive CkptFile where
  | missing
  | unreadable
  | good (c : Ckpt)
deriving DecidableEq, Repr

inductive LoadErr where
  | osError
deriving DecidableEq, Repr

def resolvePath (resume_path model_file : String) : String :=
  if resume_path = "" then model_file else resume_path

def load_model_dict (s : RState) (fs : String → CkptFile)
    (resume_path model_file : String) : Except LoadErr RState :=
  match fs (resolvePath resume_path model_file) with
  | CkptFile.missing => Except.ok s
  | CkptFile.unreadable => Except.error LoadErr.osError
  | CkptFile.good c =>
      Except.ok ⟨c.num_it.getD s.num_it, c.num_epoch.getD s.num_epoch,
                 c.best_met.getD s.best_met⟩

/-! ## Checkpoint save (utils.py lines 341-352, `Learner.save_model_dict`)

`torch.save(checkpoint, self.model_file.open('wb'))`: the canonical path is
opened for writing (truncating it) and the record is serialized into it.  The
file-system operations the call performs are modelled as a trace. -/

inductive FSOp where
  | openTrunc (path : String)
  | writeData (path : String)
  | renameFile (src dst : String)
deriving DecidableEq, Repr

def model_file_path (uid : String) : String :=
  "models/" ++ uid ++ ".pth"

def save_model_dict_ops (uid : String) : List FSOp :=
  [FSOp.openTrunc (model_file_path uid), FSOp.writeData (model_file_path uid)]

/-- The write discipline claimed by the spec: the record is written to a
temporary path which is then renamed over the target, and the target itself is
never opened for truncation. -/
def writesViaTempRename (ops : List FSOp) (target : String) : Prop :=
  (∃ tmp, tmp ≠ target ∧ FSOp.renameFile tmp target ∈ ops) ∧
    FSOp.openTrunc target ∉ ops

/-- Effect of one file operation on the content of the (single) target file:
opening for write truncates, the write stores the new record, a rename of some
other temp file would replace the content wholesale. -/
def applyFSOp (_c : List ℕ) (newData : List ℕ) (op : FSOp) : List ℕ :=
  match op with
  | FSOp.openTrunc _ => []
  | FSOp.writeData _ => newData
  | FSOp.renameFile _ _ => newData

/-- Content of the checkpoint file after the first `k` operations of
`save_model_dict` have executed (a crash point between operations). -/
def midSaveContent (uid : String) (oldData newData : List ℕ) (k : ℕ) : List ℕ :=
  ((save_model_dict_ops uid).take k).foldl (fun c op => applyFSOp c newData op) oldData

/-! ## prepare_log_file (utils.py lines 169-187)

Branching on whether the log file exists and on `cfg['del_existing']`.  In the
delete branch the code reads `self.log_dir`, an attribute `Learner` never
defines, so that branch raises `AttributeError` before touching any file.  In
the other branches the file is opened (`'a'` append or `'w'` fresh) and the
call then unconditionally writes the serialized config, a blank separator
line, and the header row. -/

inductive PyErr where
  | attributeErr (name : String)
deriving DecidableEq, Repr

def prepare_log_file (fileExists del_existing : Bool)
    (old cfgtxt header : String) : Except PyErr String :=
  if fileExists then
    if del_existing then Except.error (PyErr.attributeErr "log_dir")
    else Except.ok (old ++ cfgtxt ++ "\n\n" ++ header ++ "\n")
  else Except.ok (cfgtxt ++ "\n\n" ++ header ++ "\n")

/-! ## The training loop (utils.py lines 389-454, `Learner.fit`)

`fit` is embedded as a step relation driven by an environment script: one
`EpochSpec` per scheduled epoch says whether each fallible substep of that
epoch raises, and what primary validation metric the validation pass returns.
The observable effects are an event trace:

* `saveModel i` / `savePred i` — `save_model_dict` / `update_prediction_file`
  completed during the epoch with loop index `i` (0-based, as in
  `for epoch in mb`);
* `logRow i` — the per-epoch log row was appended (the last action of an
  epoch body, so its presence marks a fully completed epoch);
* `finalLog k exc` — the trailing line written in the `finally` block,
  rendering as `epochs done k. Exited due to exception ...` with `exc` true
  exactly when an exception terminated the loop;
* `finalSave` — the conditional `save_model_dict()` in the `finally` block.

Per the source, within one epoch the order is: `num_epoch += 1`;
`train_epoch`; `validate`; `scheduler_step`; `met_to_use = ...`;
`if best_met < met_to_use: best_met = met_to_use; save_model_dict();
update_prediction_file(...)`; row formatting and log write.  The `finally`
block writes the trailing line using the loop variable `epoch` (a `NameError`
if no epoch ever started), then runs
`if met_to_use: if best_met < met_to_use: save_model_dict()`, where the outer
test is Python truthiness (`None` and `0.0` are both falsy). -/

inductive Ev where
  | saveModel (i : ℕ)
  | savePred (i : ℕ)
  | logRow (i : ℕ)
  | finalLog (epochsDone : ℕ) (excepted : Bool)
  | finalSave
deriving DecidableEq, Repr

inductive RunErr where
  | trainE
  | validateE
  | schedE
  | saveE
  | predE
  | logE
  | nameE
deriving DecidableEq, Repr

structure EpochSpec where
  trainExn : Bool
  validateRes : Option ℚ
  schedExn : Bool
  saveExn : Bool
  predExn : Bool
  logExn : Bool
deriving DecidableEq, Repr

/-- An epoch in which nothing raises and validation returns metric `v`. -/
def cleanSpec (v : ℚ) : EpochSpec :=
  ⟨false, some v, false, false, false, false⟩

/-- An epoch whose training substep raises. -/
def trainExnSpec : EpochSpec :=
  ⟨true, none, false, false, false, false⟩

/-- The mutable state `fit` touches: `self.num_epoch`, `self.best_met`, the
local `met_to_use` (initially `None`), and the loop variable `epoch`
(unbound before the first iteration). -/
structure FitSt where
  num_epoch : ℕ
  best_met : ℚ
  met_to_use : Option ℚ
  epochVar : Option ℕ
deriving DecidableEq, Repr

structure RunOut where
  st : FitSt
  evs : List Ev
  err : Option RunErr
deriving DecidableEq, Repr

/-- One iteration of the epoch loop body, at loop index `i`. -/
def runEpoch1 (s : FitSt) (i : ℕ) (sp : EpochSpec) : RunOut :=
  let s1 : FitSt := ⟨s.num_epoch + 1, s.best_met, s.met_to_use, some i⟩
  if sp.trainExn then ⟨s1, [], some RunErr.trainE⟩ else
  match sp.validateRes with
  | none => ⟨s1, [], some RunErr.validateE⟩
  | some v =>
    if sp.schedExn then ⟨s1, [], some RunErr.schedE⟩ else
    let s2 : FitSt := ⟨s1.num_epoch, s1.best_met, some v, s1.epochVar⟩
    if s2.best_met < v then
      let s3 : FitSt := ⟨s2.num_epoch, v, s2.met_to_use, s2.epochVar⟩
      if sp.saveExn then ⟨s3, [], some RunErr.saveE⟩ else
      if sp.predExn then ⟨s3, [Ev.saveModel i], some RunErr.predE⟩ else
      if sp.logExn then ⟨s3, [Ev.saveModel i, Ev.savePred i], some RunErr.logE⟩ else
      ⟨s3, [Ev.saveModel i, Ev.savePred i, Ev.logRow i], none⟩
    else
      if sp.logExn then ⟨s2, [], some RunErr.logE⟩ else
      ⟨s2, [Ev.logRow i], none⟩

/-- The epoch loop: runs the scripted epochs in order, stopping at the first
raised exception. -/
def runEpochs (s : FitSt) (i : ℕ) : List EpochSpec → RunOut
  | [] => ⟨s, [], none⟩
  | sp :: rest =>
    let r := runEpoch1 s i sp
    match r.err with
    | some e => ⟨r.st, r.evs, some e⟩
    | none =>
      let o := runEpochs r.st (i + 1) rest
      ⟨o.st, r.evs ++ o.evs, o.err⟩

def fitInit (best0 : ℚ) (num_epoch0 : ℕ) : FitSt :=
  ⟨num_epoch0, best0, none, none⟩

/-- `Learner.fit`: the epoch loop followed by the `finally` block.  The
`except` clause stores the exception and re-raises it, so the loop result's
error is passed through; the `finally` block writes the trailing log line
(raising `NameError` if the loop variable was never bound) and then performs
the conditional final save. -/
def fit (best0 : ℚ) (num_epoch0 : ℕ) (specs : List EpochSpec) : RunOut :=
  let o := runEpochs (fitInit best0 num_epoch0) 0 specs
  match o.st.epochVar with
  | none => ⟨o.st, o.evs, some RunErr.nameE⟩
  | some k =>
    let evs1 := o.evs ++ [Ev.finalLog k o.err.isSome]
    match o.st.met_to_use with
    | none => ⟨o.st, evs1, o.err⟩
    | some v =>
      if v ≠ 0 ∧ o.st.best_met < v then ⟨o.st, evs1 ++ [Ev.finalSave], o.err⟩
      else ⟨o.st, evs1, o.err⟩

def isLogRow : Ev → Bool
  | Ev.logRow _ => true
  | _ => false

def isSaveEv : Ev → Bool
  | Ev.saveModel _ => true
  | Ev.savePred _ => true
  | Ev.finalSave => true
  | _ => false

/-- Running best value: the contents of `self.best_met` just before epoch
index `j` of a run that entered the loop with best metric `b` and clean
epochs with metric sequence `vs`. -/
def bestB (b : ℚ) (vs : List ℚ) (j : ℕ) : ℚ :=
  (vs.take j).foldl max b

/-! ## Lemmas about a single epoch of the loop -/

lemma runEpoch1_epochVar (s : FitSt) (i : ℕ) (sp : EpochSpec) :
    (runEpoch1 s i sp).st.epochVar = some i := by
  rcases sp with ⟨t, vr, sc, sv, pd, lg⟩
  simp only [runEpoch1]
  cases t <;> cases vr <;> cases sc <;> cases sv <;> cases pd <;> cases lg <;>
    simp <;> split <;> rfl

lemma runEpoch1_err_logRow (s : FitSt) (i : ℕ) (sp : EpochSpec) (e : RunErr)
    (h : (runEpoch1 s i sp).err = some e) :
    ((runEpoch1 s i sp).evs.countP isLogRow) = 0 := by
  rcases sp with ⟨t, vr, sc, sv, pd, lg⟩
  cases vr <;> simp only [runEpoch1] at h ⊢ <;>
    split_ifs at h ⊢ <;> simp_all [isLogRow]

lemma runEpoch1_ok_logRow (s : FitSt) (i : ℕ) (sp : EpochSpec)
    (h : (runEpoch1 s i sp).err = none) :
    ((runEpoch1 s i sp).evs.countP isLogRow) = 1 := by
  rcases sp with ⟨t, vr, sc, sv, pd, lg⟩
  cases vr <;> simp only [runEpoch1] at h ⊢ <;>
    split_ifs at h ⊢ <;> simp_all [isLogRow]

/-- Once `met_to_use` carries a value, `best_met` dominates it: the
assignments `met_to_use = ...` and `best_met = met_to_use` are adjacent in the
source with no fallible call between them, so no exception point separates
them. -/
lemma runEpoch1_met_le_best (s : FitSt) (i : ℕ) (sp : EpochSpec)
    (hs : ∀ w, s.met_to_use = some w → w ≤ s.best_met) :
    ∀ w, (runEpoch1 s i sp).st.met_to_use = some w →
      w ≤ (runEpoch1 s i sp).st.best_met := by
  rcases sp with ⟨t, vr, sc, sv, pd, lg⟩
  cases vr <;> simp only [runEpoch1] <;>
    split_ifs <;> intro w hw <;> simp_all

lemma runEpoch1_no_finalSave (s : FitSt) (i : ℕ) (sp : EpochSpec) :
    Ev.finalSave ∉ (runEpoch1 s i sp).evs := by
  rcases sp with ⟨t, vr, sc, sv, pd, lg⟩
  cases vr <;> simp only [runEpoch1] <;>
    split_ifs <;> simp

/-! ## Lemmas about SmoothenValue -/

lemma addValues_beta (xs : List ℚ) :
    ∀ s : SmoothenValue, (s.addValues xs).beta = s.beta := by
  induction xs with
  | nil => intro s; rfl
  | cons x xs ih =>
      intro s
      simpa [SmoothenValue.addValues] using ih (s.add_value x)

lemma addValues_n (xs : List ℚ) :
    ∀ s : SmoothenValue, (s.addValues xs).n = s.n + xs.length := by
  induction xs with
  | nil => intro s; rfl
  | cons x xs ih =>
      intro s
      have h := ih (s.add_value x)
      simp only [SmoothenValue.addValues, List.foldl_cons] at h ⊢
      rw [h]
      simp [SmoothenValue.add_value]
      omega

lemma addValues_inv (xs : List ℚ) :
    ∀ s : SmoothenValue, s.smooth = s.mov_avg / (1 - s.beta ^ s.n) →
      (s.addValues xs).smooth =
        (s.addValues xs).mov_avg / (1 - (s.addValues xs).beta ^ (s.addValues xs).n) := by
  induction xs with
  | nil => intro s h; exact h
  | cons x xs ih =>
      intro s _
      simp only [SmoothenValue.addValues, List.foldl_cons]
      exact ih (s.add_value x) rfl

/-- Claim C6: for every decay `β ∈ [0,1)` and every input sequence, after `n`
calls to `SmoothenValue.add_value` starting from the constructor state, the
sample counter equals `n` and the bias-correction invariant
`smooth = mov_avg / (1 - β ^ n)` holds, where `mov_avg` is the raw EMA
`β * mov_avg + (1 - β) * x` accumulated over the inputs. -/
theorem smoothen_value_bias_correction (β : ℚ) (h0 : 0 ≤ β) (h1 : β < 1)
    (xs : List ℚ) :
    ((SmoothenValue.start β).addValues xs).n = xs.length ∧
    ((SmoothenValue.start β).addValues xs).smooth =
      ((SmoothenValue.start β).addValues xs).mov_avg / (1 - β ^ xs.length) := by
  have hn := addValues_n xs (SmoothenValue.start β)
  have hb := addValues_beta xs (SmoothenValue.start β)
  have hbase : (SmoothenValue.start β).smooth =
      (SmoothenValue.start β).mov_avg / (1 - (SmoothenValue.start β).beta ^ (SmoothenValue.start β).n) := by
    simp [SmoothenValue.start]
  have hinv := addValues_inv xs (SmoothenValue.start β) hbase
  have hn0 : ((SmoothenValue.start β).addValues xs).n = xs.length := by
    simpa [SmoothenValue.start] using hn
  refine ⟨hn0, ?_⟩
  rw [hinv, hb, hn0]
  simp [SmoothenValue.start]

/-- Witness for C6 at `β = 1/2`, inputs `[3, 1]`. -/
theorem smoothen_value_bias_correction_witness :
    (0 : ℚ) ≤ 1/2 ∧ (1/2 : ℚ) < 1 ∧
    (((SmoothenValue.start (1/2)).addValues [3, 1]).n = 2 ∧
     ((SmoothenValue.start (1/2)).addValues [3, 1]).smooth =
       ((SmoothenValue.start (1/2)).addValues [3, 1]).mov_avg / (1 - (1/2 : ℚ) ^ 2)) :=
  ⟨by norm_num, by norm_num,
    smoothen_value_bias_correction (1/2) (by norm_num) (by norm_num) [3, 1]⟩

/-! ## Theorems about compute_avg -/

/-- Claim C7, amended: `compute_avg` returns the size-weighted mean
`Σ values[i]*weights[i] / Σ weights[i]` on non-empty equal-length inputs
(`compute_avg [2,4] [1,3] = 3.5`), and fails on an empty values list or on a
non-broadcastable length mismatch (neither length 1); a mismatch where one
length is 1 broadcasts instead of failing. -/
theorem compute_avg_spec :
    (∀ inp nums : List ℚ, inp ≠ [] → inp.length = nums.length →
        compute_avg inp nums =
          some ((List.zipWith (fun a b => a * b) inp nums).sum / nums.sum)) ∧
    compute_avg [2, 4] [1, 3] = some (7/2) ∧
    (∀ nums : List ℚ, compute_avg [] nums = none) ∧
    (∀ inp nums : List ℚ, inp.length ≠ nums.length → inp.length ≠ 1 →
        nums.length ≠ 1 → compute_avg inp nums = none) := by
  refine ⟨?_, ?_, ?_, ?_⟩
  · intro inp nums hne hlen
    have he : inp.isEmpty = false := by
      simpa [List.isEmpty_iff] using hne
    simp [compute_avg, torchMul, he, hlen]
  · norm_num [compute_avg, torchMul]
  · intro nums; rfl
  · intro inp nums h1 h2 h3
    cases inp with
    | nil => rfl
    | cons a l =>
        have h1a : l.length + 1 ≠ nums.length := by simpa using h1
        have h2a : l ≠ [] := by
          intro he
          subst he
          simp at h2
        simp [compute_avg, torchMul, h1a, h2a, h3]

/-- Witness for C7's amended theorem at `inp = [2,4]`, `nums = [1,3]`. -/
theorem compute_avg_spec_witness :
    compute_avg [2, 4] [1, 3] =
      some ((List.zipWith (fun a b => a * b) ([2, 4] : List ℚ) [1, 3]).sum /
        ([1, 3] : List ℚ).sum) :=
  compute_avg_spec.1 [2, 4] [1, 3] (by decide) (by decide)

/-- Counterexample to claim C7 as stated: the input lengths mismatch
(2 versus 1), yet `compute_avg` does not fail — torch broadcasting applies
and it returns `(2*5 + 4*5) / 5 = 6`. -/
theorem compute_avg_mismatch_cex :
    ([2, 4] : List ℚ).length ≠ ([5] : List ℚ).length ∧
    compute_avg [2, 4] [5] = some 6 :=
  ⟨by decide, by norm_num [compute_avg, torchMul]⟩

/-! ## Theorems about checkpoint load (claim C5) -/

/-- Claim C5: loading from a nonexistent path does not raise and leaves the
run state at its pre-load values; on a successful load, `num_it`,
`num_epoch` and `best_met` are each restored exactly when present in the
checkpoint record, the pre-existing value being kept otherwise. -/
theorem load_model_dict_spec :
    (∀ (s : RState) (fs : String → CkptFile) (rp mf : String),
        fs (resolvePath rp mf) = CkptFile.missing →
        load_model_dict s fs rp mf = Except.ok s) ∧
    (∀ (s : RState) (fs : String → CkptFile) (rp mf : String) (c : Ckpt),
        fs (resolvePath rp mf) = CkptFile.good c →
        load_model_dict s fs rp mf = Except.ok
          ⟨c.num_it.getD s.num_it, c.num_epoch.getD s.num_epoch,
           c.best_met.getD s.best_met⟩) := by
  constructor
  · intro s fs rp mf h
    simp [load_model_dict, h]
  · intro s fs rp mf c h
    simp [load_model_dict, h]

/-- Witness for C5: a file system with no checkpoint anywhere; loading with
the canonical path (`resume_path = ""`) returns the fresh
`postInitState` unchanged. -/
theorem load_model_dict_spec_witness :
    (fun _ : String => CkptFile.missing) (resolvePath "" (model_file_path "run1")) =
        CkptFile.missing ∧
    load_model_dict postInitState (fun _ : String => CkptFile.missing) ""
        (model_file_path "run1") = Except.ok postInitState :=
  ⟨rfl, load_model_dict_spec.1 postInitState (fun _ : String => CkptFile.missing) ""
    (model_file_path "run1") rfl⟩

/-! ## Theorems about checkpoint save (claim C3) -/

/-- Counterexample to claim C3 as stated: `save_model_dict` does not write to
a temporary path and rename it over the target — its operation trace opens
the canonical checkpoint path for truncation directly and contains no rename. -/
theorem save_model_dict_no_temp_rename :
    ¬ writesViaTempRename (save_model_dict_ops "run1") (model_file_path "run1") := by
  intro h
  rcases h with ⟨⟨tmp, hne, hmem⟩, hop⟩
  simp [save_model_dict_ops] at hmem

/-- Claim C3, amended: the save opens the canonical checkpoint path for
writing (truncating it) and serializes the record into it directly; a crash
between the truncating open and the completed write leaves the file in a
state that is neither the previous record nor the new one, so the save is
not atomic. -/
theorem save_model_dict_direct_write :
    (∀ uid : String, save_model_dict_ops uid =
        [FSOp.openTrunc (model_file_path uid), FSOp.writeData (model_file_path uid)]) ∧
    midSaveContent "run1" [1] [2] 1 ≠ [1] ∧
    midSaveContent "run1" [1] [2] 1 ≠ [2] :=
  ⟨fun _ => rfl, by decide, by decide⟩

/-! ## Theorems about prepare_log_file (claims C8 and C9) -/

/-- Counterexample to claim C8 as stated: appending to an existing log (file
exists, deletion not requested) does not leave the file unchanged before the
epoch rows — the configuration dump, separator and header row are written
again. -/
theorem prepare_log_file_append_rewrites_cex :
    prepare_log_file true false "OLD" "CFG" "HDR" ≠ Except.ok "OLD" := by
  simp [prepare_log_file]

/-- Claim C8, amended: the serialized configuration, the blank separator line
and the column-header row are written on every successful call, not only on
fresh creation; when the log exists and deletion is not requested they are
appended after the existing content. -/
theorem prepare_log_file_always_writes_header :
    (∀ (d : Bool) (old cfg hdr : String),
        prepare_log_file false d old cfg hdr =
          Except.ok (cfg ++ "\n\n" ++ hdr ++ "\n")) ∧
    (∀ old cfg hdr : String,
        prepare_log_file true false old cfg hdr =
          Except.ok (old ++ cfg ++ "\n\n" ++ hdr ++ "\n")) :=
  ⟨fun _ _ _ _ => rfl, fun _ _ _ => rfl⟩

/-- Claim C9: with an existing log and `del_existing` set, the code reads
`self.log_dir`, an attribute `Learner` never defines, so the call raises
`AttributeError` before removing anything — the prior log directory is not
removed and no fresh file is started. -/
theorem prepare_log_file_delete_attribute_error :
    ∀ old cfg hdr : String,
      prepare_log_file true true old cfg hdr =
        Except.error (PyErr.attributeErr "log_dir") :=
  fun _ _ _ => rfl

/-! ## Lemmas about the whole epoch loop -/

lemma runEpochs_err_epochVar :
    ∀ (specs : List EpochSpec) (s : FitSt) (i : ℕ) (e : RunErr),
      (runEpochs s i specs).err = some e →
      (runEpochs s i specs).st.epochVar =
        some (i + (runEpochs s i specs).evs.countP isLogRow) := by
  intro specs
  induction specs with
  | nil => intro s i e h; simp [runEpochs] at h
  | cons sp rest ih =>
      intro s i e h
      rcases hr : (runEpoch1 s i sp).err with _ | e0
      · have hcnt := runEpoch1_ok_logRow s i sp hr
        simp only [runEpochs, hr] at h ⊢
        have hvar := ih (runEpoch1 s i sp).st (i + 1) e h
        simp only [List.countP_append, hcnt]
        rw [hvar]
        congr 1
        omega
      · have hvar := runEpoch1_epochVar s i sp
        have hcnt := runEpoch1_err_logRow s i sp e0 hr
        simp only [runEpochs, hr] at h ⊢
        simp [hvar, hcnt]

lemma runEpochs_no_finalSave :
    ∀ (specs : List EpochSpec) (s : FitSt) (i : ℕ),
      Ev.finalSave ∉ (runEpochs s i specs).evs := by
  intro specs
  induction specs with
  | nil => intro s i; simp [runEpochs]
  | cons sp rest ih =>
      intro s i
      rcases hr : (runEpoch1 s i sp).err with _ | e0
      · simp only [runEpochs, hr]
        simp [List.mem_append, runEpoch1_no_finalSave s i sp,
          ih (runEpoch1 s i sp).st (i + 1)]
      · simp only [runEpochs, hr]
        simpa using runEpoch1_no_finalSave s i sp

lemma runEpochs_met_le_best :
    ∀ (specs : List EpochSpec) (s : FitSt) (i : ℕ),
      (∀ w, s.met_to_use = some w → w ≤ s.best_met) →
      ∀ w, (runEpochs s i specs).st.met_to_use = some w →
        w ≤ (runEpochs s i specs).st.best_met := by
  intro specs
  induction specs with
  | nil => intro s i hs; simpa [runEpochs] using hs
  | cons sp rest ih =>
      intro s i hs
      rcases hr : (runEpoch1 s i sp).err with _ | e0
      · simp only [runEpochs, hr]
        exact ih (runEpoch1 s i sp).st (i + 1) (runEpoch1_met_le_best s i sp hs)
      · simp only [runEpochs, hr]
        exact runEpoch1_met_le_best s i sp hs

/-! ## Equation lemmas for fit, by the shape of the loop result -/

lemma fit_eq_none (b : ℚ) (n0 : ℕ) (specs : List EpochSpec)
    (hk : (runEpochs (fitInit b n0) 0 specs).st.epochVar = none) :
    fit b n0 specs = ⟨(runEpochs (fitInit b n0) 0 specs).st,
      (runEpochs (fitInit b n0) 0 specs).evs, some RunErr.nameE⟩ := by
  simp only [fit]
  rw [hk]

lemma fit_eq_noMet (b : ℚ) (n0 : ℕ) (specs : List EpochSpec) (k : ℕ)
    (hk : (runEpochs (fitInit b n0) 0 specs).st.epochVar = some k)
    (hm : (runEpochs (fitInit b n0) 0 specs).st.met_to_use = none) :
    fit b n0 specs = ⟨(runEpochs (fitInit b n0) 0 specs).st,
      (runEpochs (fitInit b n0) 0 specs).evs ++
        [Ev.finalLog k (runEpochs (fitInit b n0) 0 specs).err.isSome],
      (runEpochs (fitInit b n0) 0 specs).err⟩ := by
  simp only [fit]
  rw [hk, hm]

lemma fit_eq_met (b : ℚ) (n0 : ℕ) (specs : List EpochSpec) (k : ℕ) (v : ℚ)
    (hk : (runEpochs (fitInit b n0) 0 specs).st.epochVar = some k)
    (hm : (runEpochs (fitInit b n0) 0 specs).st.met_to_use = some v) :
    fit b n0 specs =
      (if v ≠ 0 ∧ (runEpochs (fitInit b n0) 0 specs).st.best_met < v then
        ⟨(runEpochs (fitInit b n0) 0 specs).st,
          (runEpochs (fitInit b n0) 0 specs).evs ++
            [Ev.finalLog k (runEpochs (fitInit b n0) 0 specs).err.isSome] ++ [Ev.finalSave],
          (runEpochs (fitInit b n0) 0 specs).err⟩
      else
        ⟨(runEpochs (fitInit b n0) 0 specs).st,
          (runEpochs (fitInit b n0) 0 specs).evs ++
            [Ev.finalLog k (runEpochs (fitInit b n0) 0 specs).err.isSome],
          (runEpochs (fitInit b n0) 0 specs).err⟩) := by
  simp only [fit]
  rw [hk, hm]

lemma fit_final_props (b : ℚ) (n0 : ℕ) (specs : List EpochSpec) (k : ℕ)
    (hk : (runEpochs (fitInit b n0) 0 specs).st.epochVar = some k) :
    (fit b n0 specs).err = (runEpochs (fitInit b n0) 0 specs).err ∧
    Ev.finalLog k ((runEpochs (fitInit b n0) 0 specs).err.isSome) ∈ (fit b n0 specs).evs ∧
    (fit b n0 specs).evs.countP isLogRow =
      (runEpochs (fitInit b n0) 0 specs).evs.countP isLogRow := by
  rcases hm : (runEpochs (fitInit b n0) 0 specs).st.met_to_use with _ | v
  · rw [fit_eq_noMet b n0 specs k hk hm]
    simp [List.countP_append, isLogRow]
  · rw [fit_eq_met b n0 specs k v hk hm]
    split_ifs with hcond <;> simp [List.countP_append, isLogRow]

/-- Claim C4, amended: the conditional final checkpoint save in the
`finally` block never executes.  `best_met` is assigned before the in-epoch
`save_model_dict()` call and no exception point separates `met_to_use = ...`
from that assignment, so at every loop exit the in-memory best metric already
dominates `met_to_use` and the re-check `best_met < met_to_use` is false
(when `met_to_use` is unset or `0.0`, the outer truthiness test is false as
well). -/
theorem fit_no_final_save (b : ℚ) (n0 : ℕ) (specs : List EpochSpec) :
    Ev.finalSave ∉ (fit b n0 specs).evs := by
  have hle := runEpochs_met_le_best specs (fitInit b n0) 0
    (by intro w hw; simp [fitInit] at hw)
  have hnf := runEpochs_no_finalSave specs (fitInit b n0) 0
  rcases hk : (runEpochs (fitInit b n0) 0 specs).st.epochVar with _ | k
  · rw [fit_eq_none b n0 specs hk]
    simpa using hnf
  · rcases hm : (runEpochs (fitInit b n0) 0 specs).st.met_to_use with _ | v
    · rw [fit_eq_noMet b n0 specs k hk hm]
      simp [List.mem_append, hnf]
    · have hv := hle v hm
      have hcond : ¬ (v ≠ 0 ∧ (runEpochs (fitInit b n0) 0 specs).st.best_met < v) := by
        rintro ⟨h1, h2⟩
        exact absurd h2 (not_lt.2 hv)
      rw [fit_eq_met b n0 specs k v hk hm, if_neg hcond]
      simp [List.mem_append, hnf]

/-- Counterexample to claim C4 as stated: a fresh run (saved best metric 0)
whose single epoch produces metric `7/10` and whose in-epoch
`save_model_dict` raises.  The trace shows no completed checkpoint write, so
the metric `7/10` exceeds the last-saved best metric `0`, yet the
finalization performs no save (`best_met` was already updated to `7/10`
before the failed save call). -/
theorem fit_final_save_cex :
    (fit 0 0 [⟨false, some (7/10), false, true, false, false⟩]).evs =
      [Ev.finalLog 0 true] ∧
    ¬ ((∃ v, (fit 0 0 [⟨false, some (7/10), false, true, false, false⟩]).st.met_to_use =
          some v ∧ postInitState.best_met < v) →
        Ev.finalSave ∈ (fit 0 0 [⟨false, some (7/10), false, true, false, false⟩]).evs) := by
  constructor
  · norm_num [fit, runEpochs, runEpoch1, fitInit]
  · intro himp
    have hmem := himp ⟨7/10,
      by norm_num [fit, runEpochs, runEpoch1, fitInit],
      by norm_num [postInitState]⟩
    have hevs : (fit 0 0 [⟨false, some (7/10), false, true, false, false⟩]).evs =
        [Ev.finalLog 0 true] := by
      norm_num [fit, runEpochs, runEpoch1, fitInit]
    rw [hevs] at hmem
    simp at hmem

/-- Claim C1: whenever an exception is raised anywhere inside the epoch
loop, the `finally` block still appends a trailing log line whose epoch
number equals the count of fully completed epochs (the `logRow` events) and
whose exception flag is set, and the original exception is re-raised to the
caller.  In particular, an exception inside epoch 2's training substep gives
the line `epochs done 1` (the loop variable is `1`, one epoch completed) and
re-raises the training exception. -/
theorem fit_exception_finalizes :
    (∀ (b : ℚ) (n0 : ℕ) (specs : List EpochSpec) (e : RunErr),
        (runEpochs (fitInit b n0) 0 specs).err = some e →
        (fit b n0 specs).err = some e ∧
        Ev.finalLog ((fit b n0 specs).evs.countP isLogRow) true ∈ (fit b n0 specs).evs) ∧
    ((fit 0 0 [cleanSpec (1/2), trainExnSpec]).evs =
        [Ev.saveModel 0, Ev.savePred 0, Ev.logRow 0, Ev.finalLog 1 true] ∧
     (fit 0 0 [cleanSpec (1/2), trainExnSpec]).err = some RunErr.trainE) := by
  constructor
  · intro b n0 specs e he
    have hvar := runEpochs_err_epochVar specs (fitInit b n0) 0 e he
    obtain ⟨herr, hmem, hcnt⟩ := fit_final_props b n0 specs
      (0 + (runEpochs (fitInit b n0) 0 specs).evs.countP isLogRow) hvar
    refine ⟨by rw [herr, he], ?_⟩
    rw [hcnt]
    have hsome : (runEpochs (fitInit b n0) 0 specs).err.isSome = true := by
      rw [he]; rfl
    rw [hsome] at hmem
    simpa using hmem
  · constructor
    · norm_num [fit, runEpochs, runEpoch1, cleanSpec, fitInit, trainExnSpec]
    · norm_num [fit, runEpochs, runEpoch1, cleanSpec, fitInit, trainExnSpec]

/-- Witness for C1 at the concrete two-epoch run of the claim: epoch 1 is
clean with metric `1/2`, epoch 2's training substep raises. -/
theorem fit_exception_finalizes_witness :
    (runEpochs (fitInit 0 0) 0 [cleanSpec (1/2), trainExnSpec]).err = some RunErr.trainE ∧
    ((fit 0 0 [cleanSpec (1/2), trainExnSpec]).err = some RunErr.trainE ∧
      Ev.finalLog ((fit 0 0 [cleanSpec (1/2), trainExnSpec]).evs.countP isLogRow) true ∈
        (fit 0 0 [cleanSpec (1/2), trainExnSpec]).evs) := by
  have h : (runEpochs (fitInit 0 0) 0 [cleanSpec (1/2), trainExnSpec]).err =
      some RunErr.trainE := by
    norm_num [runEpochs, runEpoch1, cleanSpec, fitInit, trainExnSpec]
  exact ⟨h, fit_exception_finalizes.1 0 0 [cleanSpec (1/2), trainExnSpec] RunErr.trainE h⟩

/-! ## Clean runs: where the in-epoch save fires (claim C2) -/

lemma runEpoch1_clean_pos (s : FitSt) (i : ℕ) (v : ℚ) (hb : s.best_met < v) :
    runEpoch1 s i (cleanSpec v) =
      ⟨⟨s.num_epoch + 1, v, some v, some i⟩,
        [Ev.saveModel i, Ev.savePred i, Ev.logRow i], none⟩ := by
  simp only [runEpoch1, cleanSpec]
  simp [hb]

lemma runEpoch1_clean_neg (s : FitSt) (i : ℕ) (v : ℚ) (hb : ¬ s.best_met < v) :
    runEpoch1 s i (cleanSpec v) =
      ⟨⟨s.num_epoch + 1, s.best_met, some v, some i⟩, [Ev.logRow i], none⟩ := by
  simp only [runEpoch1, cleanSpec]
  simp [hb]

lemma le_foldl_max : ∀ (l : List ℚ) (b : ℚ), b ≤ l.foldl max b := by
  intro l
  induction l with
  | nil => intro b; exact le_refl b
  | cons x tl ih => intro b; exact le_trans (le_max_left b x) (ih (max b x))

lemma bestB_zero (b : ℚ) (vs : List ℚ) : bestB b vs 0 = b := rfl

lemma bestB_cons (b v : ℚ) (tl : List ℚ) (k : ℕ) :
    bestB b (v :: tl) (k + 1) = bestB (max b v) tl k := by
  simp [bestB]

lemma le_bestB (b : ℚ) (vs : List ℚ) (j : ℕ) : b ≤ bestB b vs j :=
  le_foldl_max (vs.take j) b

lemma savesAt_split (b v : ℚ) (tl : List ℚ) (i0 j : ℕ) :
    (∃ jj, ∃ h : jj < (v :: tl).length, j = i0 + jj ∧
        bestB b (v :: tl) jj < (v :: tl).get ⟨jj, h⟩) ↔
      ((j = i0 ∧ b < v) ∨
        (∃ jj, ∃ h : jj < tl.length, j = (i0 + 1) + jj ∧
          bestB (max b v) tl jj < tl.get ⟨jj, h⟩)) := by
  constructor
  · rintro ⟨jj, h, rfl, hlt⟩
    cases jj with
    | zero => exact Or.inl ⟨by omega, by simpa [bestB] using hlt⟩
    | succ k =>
        refine Or.inr ⟨k, by simpa using h, by omega, ?_⟩
        rw [bestB_cons] at hlt
        simpa using hlt
  · rintro (⟨rfl, hbv⟩ | ⟨jj, h, rfl, hlt⟩)
    · exact ⟨0, by simp, by omega, by simpa [bestB] using hbv⟩
    · refine ⟨jj + 1, by simpa using Nat.succ_lt_succ h, by omega, ?_⟩
      rw [bestB_cons]
      simpa using hlt

lemma runEpochs_clean_saves :
    ∀ (vs : List ℚ) (s : FitSt) (i0 j : ℕ),
      (Ev.saveModel j ∈ (runEpochs s i0 (vs.map cleanSpec)).evs ↔
        ∃ jj, ∃ h : jj < vs.length, j = i0 + jj ∧
          bestB s.best_met vs jj < vs.get ⟨jj, h⟩) ∧
      (Ev.savePred j ∈ (runEpochs s i0 (vs.map cleanSpec)).evs ↔
        ∃ jj, ∃ h : jj < vs.length, j = i0 + jj ∧
          bestB s.best_met vs jj < vs.get ⟨jj, h⟩) := by
  intro vs
  induction vs with
  | nil => intro s i0 j; simp [runEpochs]
  | cons v tl ih =>
      intro s i0 j
      by_cases hb : s.best_met < v
      · have hmax : max s.best_met v = v := max_eq_right hb.le
        have he := runEpoch1_clean_pos s i0 v hb
        have iht := ih ⟨s.num_epoch + 1, v, some v, some i0⟩ (i0 + 1) j
        constructor
        · rw [savesAt_split, hmax]
          simp only [List.map_cons, runEpochs, he, List.mem_append, List.mem_cons,
            List.not_mem_nil, or_false]
          rw [iht.1]
          simp [hb]
        · rw [savesAt_split, hmax]
          simp only [List.map_cons, runEpochs, he, List.mem_append, List.mem_cons,
            List.not_mem_nil, or_false]
          rw [iht.2]
          simp [hb]
      · have hmax : max s.best_met v = s.best_met := max_eq_left (not_lt.1 hb)
        have he := runEpoch1_clean_neg s i0 v hb
        have iht := ih ⟨s.num_epoch + 1, s.best_met, some v, some i0⟩ (i0 + 1) j
        constructor
        · rw [savesAt_split, hmax]
          simp only [List.map_cons, runEpochs, he, List.mem_append, List.mem_cons,
            List.not_mem_nil, or_false]
          rw [iht.1]
          simp [hb]
        · rw [savesAt_split, hmax]
          simp only [List.map_cons, runEpochs, he, List.mem_append, List.mem_cons,
            List.not_mem_nil, or_false]
          rw [iht.2]
          simp [hb]

lemma fit_mem_saveModel (b : ℚ) (n0 : ℕ) (specs : List EpochSpec) (j : ℕ) :
    Ev.saveModel j ∈ (fit b n0 specs).evs ↔
      Ev.saveModel j ∈ (runEpochs (fitInit b n0) 0 specs).evs := by
  rcases hk : (runEpochs (fitInit b n0) 0 specs).st.epochVar with _ | k
  · rw [fit_eq_none b n0 specs hk]
  · rcases hm : (runEpochs (fitInit b n0) 0 specs).st.met_to_use with _ | v
    · rw [fit_eq_noMet b n0 specs k hk hm]
      simp
    · rw [fit_eq_met b n0 specs k v hk hm]
      split_ifs <;> simp

lemma fit_mem_savePred (b : ℚ) (n0 : ℕ) (specs : List EpochSpec) (j : ℕ) :
    Ev.savePred j ∈ (fit b n0 specs).evs ↔
      Ev.savePred j ∈ (runEpochs (fitInit b n0) 0 specs).evs := by
  rcases hk : (runEpochs (fitInit b n0) 0 specs).st.epochVar with _ | k
  · rw [fit_eq_none b n0 specs hk]
  · rcases hm : (runEpochs (fitInit b n0) 0 specs).st.met_to_use with _ | v
    · rw [fit_eq_noMet b n0 specs k hk hm]
      simp
    · rw [fit_eq_met b n0 specs k v hk hm]
      split_ifs <;> simp

/-- Claim C2: in an exception-free run with validation metric sequence `vs`,
the checkpoint and the predictions file are written in epoch `j` (0-based) if
and only if `vs[j]` strictly exceeds the best metric seen so far (the maximum
of the entry best and the earlier metrics); for the sequence
`[0.5, 0.5, 0.6, 0.4]` from a fresh run, the save events are exactly at
epochs 1 and 3 (indices 0 and 2). -/
theorem fit_save_policy :
    (∀ (b : ℚ) (n0 : ℕ) (vs : List ℚ) (j : ℕ),
        (Ev.saveModel j ∈ (fit b n0 (vs.map cleanSpec)).evs ↔
          ∃ h : j < vs.length, bestB b vs j < vs.get ⟨j, h⟩) ∧
        (Ev.savePred j ∈ (fit b n0 (vs.map cleanSpec)).evs ↔
          ∃ h : j < vs.length, bestB b vs j < vs.get ⟨j, h⟩)) ∧
    (fit 0 0 ([1/2, 1/2, 3/5, 2/5].map cleanSpec)).evs.filter isSaveEv =
      [Ev.saveModel 0, Ev.savePred 0, Ev.saveModel 2, Ev.savePred 2] := by
  constructor
  · intro b n0 vs j
    have h1 := runEpochs_clean_saves vs (fitInit b n0) 0 j
    have hb : (fitInit b n0).best_met = b := rfl
    rw [hb] at h1
    constructor
    · rw [fit_mem_saveModel, h1.1]
      constructor
      · rintro ⟨jj, h, heq, hlt⟩
        have hjj : jj = j := by omega
        subst hjj
        exact ⟨h, hlt⟩
      · rintro ⟨h, hlt⟩
        exact ⟨j, h, by omega, hlt⟩
    · rw [fit_mem_savePred, h1.2]
      constructor
      · rintro ⟨jj, h, heq, hlt⟩
        have hjj : jj = j := by omega
        subst hjj
        exact ⟨h, hlt⟩
      · rintro ⟨h, hlt⟩
        exact ⟨j, h, by omega, hlt⟩
  · norm_num [fit, runEpochs, runEpoch1, cleanSpec, fitInit, isSaveEv, List.filter]

/-! ## The zero sentinel and positive-metric saves (claim C10) -/

lemma runEpoch1_best_mono (s : FitSt) (i : ℕ) (sp : EpochSpec) :
    s.best_met ≤ (runEpoch1 s i sp).st.best_met := by
  rcases sp with ⟨t, vr, sc, sv, pd, lg⟩
  cases vr <;> simp only [runEpoch1] <;> split_ifs <;> simp_all <;> linarith

lemma runEpoch1_save_needs (s : FitSt) (i : ℕ) (sp : EpochSpec) (j : ℕ)
    (h : Ev.saveModel j ∈ (runEpoch1 s i sp).evs ∨
      Ev.savePred j ∈ (runEpoch1 s i sp).evs) :
    j = i ∧ ∃ v, sp.validateRes = some v ∧ s.best_met < v := by
  rcases sp with ⟨t, vr, sc, sv, pd, lg⟩
  cases vr <;> simp only [runEpoch1] at h <;> split_ifs at h <;> simp_all

lemma runEpochs_save_pos :
    ∀ (specs : List EpochSpec) (s : FitSt) (i : ℕ),
      0 ≤ s.best_met →
      ∀ j, (Ev.saveModel j ∈ (runEpochs s i specs).evs ∨
            Ev.savePred j ∈ (runEpochs s i specs).evs) →
        ∃ d, j = i + d ∧ ∃ sp, specs.get? d = some sp ∧
          ∃ v, sp.validateRes = some v ∧ 0 < v := by
  intro specs
  induction specs with
  | nil => intro s i hb j hj; simp [runEpochs] at hj
  | cons sp rest ih =>
      intro s i hb j hj
      rcases hr : (runEpoch1 s i sp).err with _ | e0
      · simp only [runEpochs, hr, List.mem_append] at hj
        rcases hj with (h1 | h1) | (h1 | h1)
        · obtain ⟨rfl, v, hv, hlt⟩ := runEpoch1_save_needs s i sp j (Or.inl h1)
          exact ⟨0, by omega, sp, rfl, v, hv, lt_of_le_of_lt hb hlt⟩
        · obtain ⟨d, rfl, q, hq, v, hv, hpos⟩ :=
            ih (runEpoch1 s i sp).st (i + 1)
              (le_trans hb (runEpoch1_best_mono s i sp)) j (Or.inl h1)
          exact ⟨d + 1, by omega, q, by simpa using hq, v, hv, hpos⟩
        · obtain ⟨rfl, v, hv, hlt⟩ := runEpoch1_save_needs s i sp j (Or.inr h1)
          exact ⟨0, by omega, sp, rfl, v, hv, lt_of_le_of_lt hb hlt⟩
        · obtain ⟨d, rfl, q, hq, v, hv, hpos⟩ :=
            ih (runEpoch1 s i sp).st (i + 1)
              (le_trans hb (runEpoch1_best_mono s i sp)) j (Or.inr h1)
          exact ⟨d + 1, by omega, q, by simpa using hq, v, hv, hpos⟩
      · simp only [runEpochs, hr] at hj
        obtain ⟨rfl, v, hv, hlt⟩ := runEpoch1_save_needs s i sp j hj
        exact ⟨0, by omega, sp, rfl, v, hv, lt_of_le_of_lt hb hlt⟩

lemma runEpoch1_nonpos (s : FitSt) (i : ℕ) (sp : EpochSpec)
    (hb : 0 ≤ s.best_met)
    (hm : ∀ w, s.met_to_use = some w → w ≤ 0)
    (hv : ∀ v, sp.validateRes = some v → v ≤ 0) :
    ((runEpoch1 s i sp).evs.countP isSaveEv = 0) ∧
    0 ≤ (runEpoch1 s i sp).st.best_met ∧
    (∀ w, (runEpoch1 s i sp).st.met_to_use = some w → w ≤ 0) := by
  rcases sp with ⟨t, vr, sc, sv, pd, lg⟩
  cases vr with
  | none =>
      simp only [runEpoch1]
      split_ifs <;> simp_all [isSaveEv]
  | some v =>
      have hv0 : v ≤ 0 := hv v rfl
      have hnot : ¬ s.best_met < v := not_lt.2 (hv0.trans hb)
      simp only [runEpoch1]
      split_ifs <;> simp_all [isSaveEv]

lemma runEpochs_nonpos :
    ∀ (specs : List EpochSpec) (s : FitSt) (i : ℕ),
      0 ≤ s.best_met →
      (∀ w, s.met_to_use = some w → w ≤ 0) →
      (∀ sp ∈ specs, ∀ v, sp.validateRes = some v → v ≤ 0) →
      ((runEpochs s i specs).evs.countP isSaveEv = 0) ∧
      0 ≤ (runEpochs s i specs).st.best_met ∧
      (∀ w, (runEpochs s i specs).st.met_to_use = some w → w ≤ 0) := by
  intro specs
  induction specs with
  | nil =>
      intro s i hb hm _
      exact ⟨by simp [runEpochs], by simpa [runEpochs] using hb,
        by simpa [runEpochs] using hm⟩
  | cons sp rest ih =>
      intro s i hb hm hsp
      obtain ⟨h1, h2, h3⟩ := runEpoch1_nonpos s i sp hb hm (hsp sp (by simp))
      rcases hr : (runEpoch1 s i sp).err with _ | e0
      · obtain ⟨g1, g2, g3⟩ := ih (runEpoch1 s i sp).st (i + 1) h2 h3
          (fun q hq => hsp q (by simp [hq]))
        refine ⟨?_, ?_, ?_⟩
        · simp only [runEpochs, hr, List.countP_append, h1, g1]
        · simp only [runEpochs, hr]; exact g2
        · simp only [runEpochs, hr]; exact g3
      · refine ⟨?_, ?_, ?_⟩
        · simp only [runEpochs, hr, h1]
        · simp only [runEpochs, hr]; exact h2
        · simp only [runEpochs, hr]; exact h3

/-- Claim C10: the "no model yet" sentinel is the number `0` — at
construction `best_met` is initialized to `0`; any checkpoint/predictions
save happens at an epoch whose validation metric is strictly positive; and a
run whose primary validation metric is never positive performs no checkpoint
write, no predictions write and no final save at all. -/
theorem fit_zero_sentinel :
    postInitState.best_met = 0 ∧
    (∀ (specs : List EpochSpec) (j : ℕ),
        (Ev.saveModel j ∈
            (fit postInitState.best_met postInitState.num_epoch specs).evs ∨
          Ev.savePred j ∈
            (fit postInitState.best_met postInitState.num_epoch specs).evs) →
        ∃ sp, specs.get? j = some sp ∧ ∃ v, sp.validateRes = some v ∧ 0 < v) ∧
    (∀ specs : List EpochSpec,
        (∀ sp ∈ specs, ∀ v, sp.validateRes = some v → v ≤ 0) →
        (fit postInitState.best_met postInitState.num_epoch specs).evs.countP
          isSaveEv = 0) := by
  refine ⟨rfl, ?_, ?_⟩
  · intro specs j hj
    rw [fit_mem_saveModel, fit_mem_savePred] at hj
    obtain ⟨d, hd, q, hq, v, hv, hpos⟩ :=
      runEpochs_save_pos specs (fitInit postInitState.best_met postInitState.num_epoch) 0
        (by norm_num [fitInit, postInitState]) j hj
    have hdj : d = j := by omega
    subst hdj
    exact ⟨q, hq, v, hv, hpos⟩
  · intro specs hspecs
    obtain ⟨h1, h2, h3⟩ := runEpochs_nonpos specs
      (fitInit postInitState.best_met postInitState.num_epoch) 0
      (by norm_num [fitInit, postInitState]) (by simp [fitInit]) hspecs
    rcases hk : (runEpochs (fitInit postInitState.best_met postInitState.num_epoch) 0
        specs).st.epochVar with _ | k
    · rw [fit_eq_none postInitState.best_met postInitState.num_epoch specs hk]
      exact h1
    · rcases hm : (runEpochs (fitInit postInitState.best_met postInitState.num_epoch) 0
          specs).st.met_to_use with _ | v
      · rw [fit_eq_noMet postInitState.best_met postInitState.num_epoch specs k hk hm]
        simp [List.countP_append, h1, isSaveEv]
      · have hv0 : v ≤ 0 := h3 v hm
        have hcond : ¬ (v ≠ 0 ∧
            (runEpochs (fitInit postInitState.best_met postInitState.num_epoch) 0
              specs).st.best_met < v) := by
          rintro ⟨hne, hlt⟩
          exact absurd hlt (not_lt.2 (hv0.trans h2))
        rw [fit_eq_met postInitState.best_met postInitState.num_epoch specs k v hk hm,
          if_neg hcond]
        simp [List.countP_append, h1, isSaveEv]

/-- Witness for C10: a two-epoch clean run with metrics `0` and `-1` (never
positive) performs no save of any kind. -/
theorem fit_zero_sentinel_witness :
    (∀ sp ∈ [cleanSpec 0, cleanSpec (-1)], ∀ v, sp.validateRes = some v → v ≤ (0 : ℚ)) ∧
    (fit postInitState.best_met postInitState.num_epoch
      [cleanSpec 0, cleanSpec (-1)]).evs.countP isSaveEv = 0 := by
  have hsp : ∀ sp ∈ [cleanSpec 0, cleanSpec (-1)], ∀ v,
      sp.validateRes = some v → v ≤ (0 : ℚ) := by
    intro sp hmem v hv
    simp only [List.mem_cons, List.not_mem_nil, or_false] at hmem
    rcases hmem with rfl | rfl
    · have hv0 : v = 0 := by simpa [cleanSpec] using hv.symm
      simp [hv0]
    · have hv0 : v = -1 := by simpa [cleanSpec] using hv.symm
      norm_num [hv0]
  exact ⟨hsp, fit_zero_sentinel.2.2 [cleanSpec 0, cleanSpec (-1)] hsp⟩

end ZSGNet
